import Mathlib

/-!
Verification development for the round/score engine of a bid-based
trick-taking card game.  The definitions below are shallow embeddings of
the JavaScript source modules: integer-valued JS numbers become `Int`,
thrown exceptions become `Except String`, and mutable objects become
explicit state passing.
-/

namespace CardGame

/-! ## ScoreRule: `ScoreCalculator.calculateScore` (src/src/game/scoreCalculator.js)

The static method validates `bid ≥ 0`, `actualTricks ≥ 0` and
`cardsDealt > 0`, then applies the zero-bid / exact-bid / miss scoring
table.  Thrown `Error`s become `Except.error`. -/

def calculateScore (bid actualTricks cardsDealt : Int) : Except String Int :=
  if bid < 0 then
    .error "Bid must be a non-negative number"
  else if actualTricks < 0 then
    .error "Actual tricks must be a non-negative number"
  else if cardsDealt ≤ 0 then
    .error "Cards dealt must be a positive number"
  else if bid = 0 then
    if actualTricks = 0 then
      .ok (10 * cardsDealt)
    else
      .ok (-10 * cardsDealt)
  else if bid = actualTricks then
    .ok (20 * actualTricks)
  else
    .ok (-10 * |bid - actualTricks|)

/-! ## ScoreRule: first `calculateRoundScore` (src/js/scoring.js, first copy)

This copy additionally rejects `tricksTaken > cardsDealt` but allows
`cardsDealt = 0` (its guard is `cardsDealt < 0`) and never bounds `bid`. -/

def calculateRoundScore (bid tricksTaken cardsDealt : Int) : Except String Int :=
  if bid < 0 ∨ tricksTaken < 0 ∨ cardsDealt < 0 then
    .error "Parameters cannot be negative"
  else if tricksTaken > cardsDealt then
    .error "Tricks taken cannot exceed cards dealt"
  else if bid = 0 then
    if tricksTaken = 0 then
      .ok (10 * cardsDealt)
    else
      .ok (-10 * cardsDealt)
  else if bid = tricksTaken then
    .ok (20 * tricksTaken)
  else
    .ok (-10 * |bid - tricksTaken|)

/-! ## ScoreRule: second `calculateRoundScore` (src/js/scoring.js, second copy)

This copy bounds both `bid` and `tricksTaken` by `cardsDealt` but still
allows `cardsDealt = 0`. -/

def calculateRoundScore2 (bid tricksTaken cardsDealt : Int) : Except String Int :=
  if bid < 0 ∨ tricksTaken < 0 ∨ cardsDealt < 0 then
    .error "All parameters must be non-negative"
  else if tricksTaken > cardsDealt ∨ bid > cardsDealt then
    .error "Bid and tricks taken cannot exceed cards dealt"
  else if bid = 0 then
    if tricksTaken = 0 then
      .ok (10 * cardsDealt)
    else
      .ok (-10 * cardsDealt)
  else if bid = tricksTaken then
    .ok (20 * tricksTaken)
  else
    .ok (-10 * |bid - tricksTaken|)

/-! ## BonusPolicy: `calculateAppliedBonusPoints` (src/unnamed/part_001, `useBonusPoints`)

`bonusPointsHistory[round]?.[playerId] || 0` is modelled as a total
function defaulting to `0`.  The JS closure looks the declared bonus up,
returns `0` for a zero declaration, finds the player's result in
`roundResults`, and applies the bonus only on an exact bid. -/

structure PlayerResult where
  playerId : String
  bid : Int
  tricks : Int
deriving DecidableEq, Repr

def calculateAppliedBonusPoints (bonusPointsHistory : Nat → String → Int)
    (round : Nat) (playerId : String) (roundResults : List PlayerResult) : Int :=
  let bonusPoints := bonusPointsHistory round playerId
  if bonusPoints = 0 then 0
  else
    match roundResults.find? (fun result => result.playerId == playerId) with
    | none => 0
    | some playerResult =>
      if playerResult.bid = playerResult.tricks then bonusPoints else 0

/-! ## Standings: `ScoreTracker._updateRankings` (src/unnamed/part_008)

The method sorts the `(playerName, playerData)` entries by `totalScore`
descending (JS `Array.prototype.sort` is stable; we model it with the
stable `insertionSort`) and then walks the sorted list with the mutable
trio `currentRank` / `previousScore` / `playersAtRank`, assigning a rank
to each entry. -/

def scoreGe (a b : String × Int) : Prop := b.2 ≤ a.2

instance : DecidableRel scoreGe := fun a b => inferInstanceAs (Decidable (b.2 ≤ a.2))

instance : IsTotal (String × Int) scoreGe := ⟨fun a b => le_total b.2 a.2⟩

instance : IsTrans (String × Int) scoreGe := ⟨fun _ _ _ hab hbc => le_trans hbc hab⟩

def sortByScoreDesc (players : List (String × Int)) : List (String × Int) :=
  List.insertionSort scoreGe players

def assignRanksGo (currentRank : Nat) (previousScore : Option Int) (playersAtRank : Nat) :
    List (String × Int) → List (String × Int × Nat)
  | [] => []
  | (name, score) :: rest =>
    match previousScore with
    | some prevScore =>
      if score < prevScore then
        (name, score, currentRank + playersAtRank) ::
          assignRanksGo (currentRank + playersAtRank) (some score) 1 rest
      else
        (name, score, currentRank) ::
          assignRanksGo currentRank (some score) (playersAtRank + 1) rest
    | none =>
      (name, score, currentRank) ::
        assignRanksGo currentRank (some score) (playersAtRank + 1) rest

def updateRankings (players : List (String × Int)) : List (String × Int × Nat) :=
  assignRanksGo 1 none 0 (sortByScoreDesc players)

/-- Specification-side rank assignment: each entry is ranked `1 +` the
number of strictly greater scores among the entries before it.  Used only
to reason about `assignRanksGo`. -/
def rankSpecGo (pre : List Int) : List (String × Int) → List (String × Int × Nat)
  | [] => []
  | (name, score) :: rest =>
    (name, score, 1 + pre.countP (fun x => decide (score < x))) ::
      rankSpecGo (pre ++ [score]) rest

theorem assignRanksGo_eq_rankSpecGo (l : List (String × Int)) (pre : List Int) (p : Int)
    (rk cnt : Nat)
    (hmin : ∀ x ∈ pre, p ≤ x)
    (hrk : rk = 1 + pre.countP (fun x => decide (p < x)))
    (hcnt : cnt = pre.countP (fun x => decide (x = p)))
    (hl : ∀ y ∈ l, y.2 ≤ p)
    (hpair : List.Pairwise scoreGe l) :
    assignRanksGo rk (some p) cnt l = rankSpecGo pre l := by
  induction l generalizing pre p rk cnt with
  | nil => rfl
  | cons hd rest ih =>
    obtain ⟨n, s⟩ := hd
    have hs : s ≤ p := hl (n, s) (List.mem_cons_self _ _)
    have hrest : ∀ y ∈ rest, y.2 ≤ s := fun y hy => (List.pairwise_cons.mp hpair).1 y hy
    have hpair' : List.Pairwise scoreGe rest := (List.pairwise_cons.mp hpair).2
    have hsplit : pre.length =
        pre.countP (fun x => decide (p < x)) + pre.countP (fun x => decide (x = p)) := by
      rw [List.length_eq_countP_add_countP (fun x => decide (p < x)) pre]
      congr 1
      refine List.countP_congr ?_
      intro x hx
      have := hmin x hx
      constructor
      · intro hnot
        simp only [decide_eq_true_eq] at hnot ⊢
        omega
      · intro hxe
        simp only [decide_eq_true_eq] at hxe ⊢
        omega
    simp only [assignRanksGo, rankSpecGo]
    by_cases hlt : s < p
    · rw [if_pos hlt]
      have hfull : pre.countP (fun x => decide (s < x)) = pre.length :=
        List.countP_eq_length.mpr (fun x hx => by
          simp only [decide_eq_true_eq]
          exact lt_of_lt_of_le hlt (hmin x hx))
      have hrkcnt : rk + cnt = 1 + pre.countP (fun x => decide (s < x)) := by omega
      refine congr (congrArg _ ?_) ?_
      · rw [hrkcnt]
      · refine ih (pre ++ [s]) s (rk + cnt) 1 ?_ ?_ ?_ hrest hpair'
        · intro x hx
          rcases List.mem_append.mp hx with hx1 | hx2
          · exact le_of_lt (lt_of_lt_of_le hlt (hmin x hx1))
          · rw [List.mem_singleton.mp hx2]
        · rw [List.countP_append]
          have : List.countP (fun x => decide (s < x)) [s] = 0 := by
            simp [List.countP_cons]
          omega
        · rw [List.countP_append]
          have h0 : pre.countP (fun x => decide (x = s)) = 0 :=
            List.countP_eq_zero.mpr (fun x hx => by
              have := hmin x hx
              simp only [decide_eq_true_eq]
              omega)
          have h1 : List.countP (fun x => decide (x = s)) [s] = 1 := by
            simp [List.countP_cons]
          omega
    · rw [if_neg hlt]
      have hsp : s = p := le_antisymm hs (not_lt.mp hlt)
      subst hsp
      refine congr (congrArg _ ?_) ?_
      · rw [hrk]
      · refine ih (pre ++ [s]) s rk (cnt + 1) ?_ ?_ ?_ hrest hpair'
        · intro x hx
          rcases List.mem_append.mp hx with hx1 | hx2
          · exact hmin x hx1
          · rw [List.mem_singleton.mp hx2]
        · rw [List.countP_append]
          have : List.countP (fun x => decide (s < x)) [s] = 0 := by
            simp [List.countP_cons]
          omega
        · rw [List.countP_append]
          have : List.countP (fun x => decide (x = s)) [s] = 1 := by
            simp [List.countP_cons]
          omega

theorem assignRanks_eq_rankSpec (l : List (String × Int))
    (hpair : List.Pairwise scoreGe l) :
    assignRanksGo 1 none 0 l = rankSpecGo [] l := by
  cases l with
  | nil => rfl
  | cons hd rest =>
    obtain ⟨n, s⟩ := hd
    simp only [assignRanksGo, rankSpecGo]
    refine congr (congrArg _ ?_) ?_
    · rfl
    · refine assignRanksGo_eq_rankSpecGo rest [s] s 1 1 ?_ ?_ ?_
        (fun y hy => (List.pairwise_cons.mp hpair).1 y hy)
        (List.pairwise_cons.mp hpair).2
      · intro x hx
        rw [List.mem_singleton.mp hx]
      · simp [List.countP_cons]
      · simp [List.countP_cons]

theorem rankSpecGo_decomp (u w : List (String × Int × Nat)) (l : List (String × Int))
    (pre : List Int) (h : rankSpecGo pre l = u ++ w) :
    ∃ l1 l2, l = l1 ++ l2 ∧ u = rankSpecGo pre l1 ∧
      w = rankSpecGo (pre ++ l1.map Prod.snd) l2 ∧ l1.length = u.length := by
  induction u generalizing pre l with
  | nil =>
    refine ⟨[], l, rfl, rfl, ?_, rfl⟩
    simpa using h.symm
  | cons e u' ih =>
    cases l with
    | nil => simp [rankSpecGo] at h
    | cons hd rest =>
      obtain ⟨n, s⟩ := hd
      simp only [rankSpecGo, List.cons_append, List.cons.injEq] at h
      obtain ⟨he, htail⟩ := h
      obtain ⟨l1', l2, hrest, hu', hw, hlen⟩ := ih rest (pre ++ [s]) htail
      refine ⟨(n, s) :: l1', l2, ?_, ?_, ?_, ?_⟩
      · rw [hrest]; rfl
      · simp only [rankSpecGo, hu', ← he]
      · rw [hw]
        simp [List.append_assoc]
      · simp [hlen]

theorem mem_rankSpecGo (e : String × Int × Nat) (l : List (String × Int)) (pre : List Int)
    (h : e ∈ rankSpecGo pre l) :
    ∃ w1 n s w2, l = w1 ++ (n, s) :: w2 ∧
      e = (n, s, 1 + (pre ++ w1.map Prod.snd).countP (fun x => decide (s < x))) := by
  induction l generalizing pre with
  | nil => simp [rankSpecGo] at h
  | cons hd rest ih =>
    obtain ⟨n, s⟩ := hd
    simp only [rankSpecGo, List.mem_cons] at h
    cases h with
    | inl he =>
      refine ⟨[], n, s, rest, rfl, ?_⟩
      simpa using he
    | inr he =>
      obtain ⟨w1, n', s', w2, hrest, he'⟩ := ih (pre ++ [s]) he
      refine ⟨(n, s) :: w1, n', s', w2, ?_, ?_⟩
      · rw [hrest]; rfl
      · rw [he']
        simp [List.append_assoc]

theorem countP_score_rankSpecGo (l : List (String × Int)) (pre : List Int) (sa : Int) :
    (rankSpecGo pre l).countP (fun e => decide (e.2.1 = sa)) =
      l.countP (fun q => decide (q.2 = sa)) := by
  induction l generalizing pre with
  | nil => rfl
  | cons hd rest ih =>
    obtain ⟨n, s⟩ := hd
    simp only [rankSpecGo, List.countP_cons, ih]

theorem rank_eq_iff_score_eq (l1 : List (String × Int)) (na : String) (sa : Int)
    (tail : List (String × Int))
    (hpair : List.Pairwise scoreGe (l1 ++ (na, sa) :: tail))
    (e : String × Int × Nat) (he : e ∈ rankSpecGo [] l1) :
    (e.2.2 = 1 + (l1.map Prod.snd).countP (fun x => decide (sa < x)) ↔ e.2.1 = sa) := by
  obtain ⟨hl1, -, hcross⟩ := List.pairwise_append.mp hpair
  obtain ⟨w1, ne, se, w2, hl1eq, heq⟩ := mem_rankSpecGo e l1 [] he
  subst hl1eq
  obtain ⟨hw1pair, hw2pair, hc⟩ := List.pairwise_append.mp hl1
  have hw1 : ∀ x ∈ w1, se ≤ x.2 := fun x hx => hc x hx (ne, se) (List.mem_cons_self _ _)
  have hsa_se : sa ≤ se :=
    hcross (ne, se) (List.mem_append.mpr (Or.inr (List.mem_cons_self _ _)))
      (na, sa) (List.mem_cons_self _ _)
  have hw2 : ∀ x ∈ w2, x.2 ≤ se := fun x hx =>
    (List.pairwise_cons.mp hw2pair).1 x hx
  rw [heq]
  simp only [List.nil_append, List.map_append, List.map_cons]
  by_cases hse : se = sa
  · subst hse
    have h2 : List.countP (fun x => decide (se < x)) (se :: w2.map Prod.snd) = 0 := by
      refine List.countP_eq_zero.mpr ?_
      intro x hx
      simp only [decide_eq_true_eq]
      rcases List.mem_cons.mp hx with hx1 | hx2
      · omega
      · obtain ⟨q, hq, hqx⟩ := List.mem_map.mp hx2
        have := hw2 q hq
        omega
    rw [List.countP_append, h2]
    simp
  · have hlt : sa < se := lt_of_le_of_ne hsa_se (fun hh => hse hh.symm)
    constructor
    · intro hrank
      exfalso
      have hle : List.countP (fun x => decide (se < x)) (w1.map Prod.snd) ≤ w1.length := by
        have := List.countP_le_length (fun x => decide (se < x)) (l := w1.map Prod.snd)
        simpa using this
      have hfull : List.countP (fun x => decide (sa < x)) (w1.map Prod.snd) =
          (w1.map Prod.snd).length :=
        List.countP_eq_length.mpr (fun x hx => by
          simp only [decide_eq_true_eq]
          obtain ⟨q, hq, hqx⟩ := List.mem_map.mp hx
          have := hw1 q hq
          omega)
      have hhd : List.countP (fun x => decide (sa < x)) (se :: w2.map Prod.snd) ≥ 1 := by
        simp only [List.countP_cons, decide_eq_true_eq]
        rw [if_pos hlt]
        omega
      rw [List.countP_append] at hrank
      simp only [List.length_map] at hfull
      omega
    · intro habs
      exact absurd habs hse

/-! ## RoundManager (src/js/rounds.js)

Rounds 1-10, round N requiring N hands.  `advanceRound` returns
`Except String Bool` paired with the post-call state: `.error` models the
thrown `Error`, `.ok false` the silent refusal at the maximum round. -/

structure RoundManager where
  currentRound : Int
  completedHands : Int
deriving DecidableEq, Repr

def RoundManager.init : RoundManager := ⟨1, 0⟩

def RoundManager.getMaxHands (s : RoundManager) : Int := s.currentRound

def RoundManager.canAdvanceRound (s : RoundManager) : Bool :=
  s.getMaxHands ≤ s.completedHands

def RoundManager.advanceRound (s : RoundManager) : Except String Bool × RoundManager :=
  if 10 ≤ s.currentRound then
    (.ok false, s)
  else if s.canAdvanceRound then
    (.ok true, { currentRound := s.currentRound + 1, completedHands := 0 })
  else
    (.error "Cannot advance round: hands not completed", s)

def RoundManager.resetRound (s : RoundManager) : RoundManager :=
  { s with completedHands := 0 }

def RoundManager.completeHand (s : RoundManager) : RoundManager :=
  if s.completedHands < s.getMaxHands then
    { s with completedHands := s.completedHands + 1 }
  else
    s

def RoundManager.resetGame (_ : RoundManager) : RoundManager := ⟨1, 0⟩

inductive RMOp where
  | advanceRound
  | resetRound
  | completeHand
  | resetGame
deriving DecidableEq, Repr

def RMOp.apply : RMOp → RoundManager → RoundManager
  | .advanceRound, s => (s.advanceRound).2
  | .resetRound, s => s.resetRound
  | .completeHand, s => s.completeHand
  | .resetGame, s => s.resetGame

/-- States of `RoundManager` reachable from the constructor through its
public operations. -/
inductive RMReachable : RoundManager → Prop where
  | init : RMReachable RoundManager.init
  | step : ∀ s op, RMReachable s → RMReachable (RMOp.apply op s)

def runOps (ops : List RMOp) (s : RoundManager) : RoundManager :=
  ops.foldl (fun t op => op.apply t) s

theorem runOps_reachable (ops : List RMOp) (s : RoundManager)
    (h : RMReachable s) : RMReachable (runOps ops s) := by
  induction ops generalizing s with
  | nil => exact h
  | cons op rest ih => exact ih _ (RMReachable.step s op h)

/-- The operation sequence that drives a fresh `RoundManager` to round 10
with zero completed hands: for each round 1-9, complete all hands and
advance. -/
def opsToRoundTen : List RMOp :=
  (List.range 9).foldr
    (fun r acc => List.replicate (r + 1) RMOp.completeHand ++ RMOp.advanceRound :: acc) []

/-! ## useRoundManager (src/unnamed/part_001, second file)

The React hook whose state is `currentRound`, the per-round
`roundsData` (round `r` requires `r` hands, starts with 0 completed) and
the `gameComplete` flag.  `roundsData` is modelled by the total function
`hands : Nat → Nat` (hands completed per round); `handsRequired r = r`
and a round entry exists exactly for `1 ≤ r ≤ totalRounds`. -/

structure HookState where
  totalRounds : Nat
  currentRound : Nat
  hands : Nat → Nat
  gameComplete : Bool

def hookInit (totalRounds : Nat) : HookState :=
  { totalRounds := totalRounds, currentRound := 1, hands := fun _ => 0,
    gameComplete := false }

def HookState.isRoundComplete (s : HookState) (roundNumber : Nat) : Bool :=
  decide (1 ≤ roundNumber) && decide (roundNumber ≤ s.totalRounds) &&
    decide (roundNumber ≤ s.hands roundNumber)

def HookState.updateHandCompletion (s : HookState) (handsCompleted : Nat) : HookState :=
  { s with hands := fun r => if r = s.currentRound then handsCompleted else s.hands r }

def HookState.advanceRound (s : HookState) : Except String Unit × HookState :=
  if s.isRoundComplete s.currentRound then
    if s.currentRound < s.totalRounds then
      (.ok (), { s with currentRound := s.currentRound + 1 })
    else
      (.ok (), { s with gameComplete := true })
  else
    (.error "Cannot advance: complete all hands first", s)

def HookState.goToRound (s : HookState) (roundNumber : Nat) :
    Except String Unit × HookState :=
  if roundNumber < 1 ∨ roundNumber > s.totalRounds then
    (.error "Invalid round number", s)
  else if roundNumber > s.currentRound then
    (.error "Cannot skip ahead", s)
  else
    (.ok (), { s with currentRound := roundNumber })

inductive HookOp where
  | updateHand (handsCompleted : Nat)
  | advance
  | goTo (roundNumber : Nat)

def hookStep (s : HookState) : HookOp → HookState
  | .updateHand n => s.updateHandCompletion n
  | .advance => (s.advanceRound).2
  | .goTo r => (s.goToRound r).2

def hookRun (totalRounds : Nat) (ops : List HookOp) : HookState :=
  ops.foldl hookStep (hookInit totalRounds)

/-! ## ScoreTracker (src/unnamed/part_008)

`players` is a JS `Map` iterated in insertion order, modelled as an
association list (the JS `Map` keys are unique; the model assumes the
player names are distinct, as `initializePlayers` guarantees for distinct
inputs).  `addRoundScores` validates that every player has a numeric
score, then pushes the round record, then applies the entries of the
submission in order — an entry naming an unknown player makes the JS loop
dereference `undefined` and throw a `TypeError` mid-loop, which the model
renders as an `Except.error` carrying the partially mutated state. -/

structure PlayerData where
  totalScore : Int
  roundScores : List Int
  rank : Nat
deriving DecidableEq, Repr

structure TrackerState where
  players : List (String × PlayerData)
  rounds : List (Nat × List (String × Int))
  currentRound : Nat
  gameEnded : Bool
deriving DecidableEq, Repr

def initializePlayers (playerNames : List String) : TrackerState :=
  { players := playerNames.map (fun n => (n, ⟨0, [], 1⟩)),
    rounds := [], currentRound := 0, gameEnded := false }

def lookupScore (roundScores : List (String × Int)) (name : String) : Option Int :=
  (roundScores.find? (fun q => q.1 == name)).map Prod.snd

def trackerUpdateRankings (players : List (String × PlayerData)) :
    List (String × PlayerData) :=
  let ranked := assignRanksGo 1 none 0
    (sortByScoreDesc (players.map (fun q => (q.1, q.2.totalScore))))
  players.map (fun q =>
    (q.1, { q.2 with
      rank := ((ranked.find? (fun e => e.1 == q.1)).map (fun e => e.2.2)).getD q.2.rank }))

def applyEntries (s : TrackerState) :
    List (String × Int) → Except String Unit × TrackerState
  | [] => (.ok (), s)
  | (name, score) :: rest =>
    match s.players.find? (fun q => q.1 == name) with
    | none => (.error "TypeError: cannot read properties of undefined", s)
    | some _ =>
      applyEntries
        { s with players := s.players.map (fun q =>
            if q.1 == name then
              (q.1, { q.2 with
                roundScores := q.2.roundScores ++ [score],
                totalScore := q.2.totalScore + score })
            else q) }
        rest

def addRoundScores (s : TrackerState) (roundScores : List (String × Int)) :
    Except String Unit × TrackerState :=
  if s.gameEnded then
    (.error "Cannot add scores after game has ended", s)
  else
    match s.players.find? (fun q => (lookupScore roundScores q.1).isNone) with
    | some q => (.error ("Score missing for player: " ++ q.1), s)
    | none =>
      let s1 := { s with rounds := s.rounds ++ [(s.currentRound + 1, roundScores)] }
      match applyEntries s1 roundScores with
      | (.error e, s2) => (.error e, s2)
      | (.ok _, s2) =>
        (.ok (), { s2 with
          currentRound := s2.currentRound + 1,
          players := trackerUpdateRankings s2.players })

/-! ## `updatePlayerScores` (src/js/scoring.js, first copy, lines 55-89)

The function receives an array of player objects, shallow-copies each one
(`players.map(player => ({ ...player }))`), then mutates only the copies
(`player.score += result.score`, initialising a missing `score` to 0) and
returns the array of copies.  To make object identity and mutation
observable, the embedding uses an explicit heap: a list of `PlayerObj`
addressed by position.  The input is a list of addresses; copying
allocates fresh addresses at the end of the heap; mutation is `List.set`
at a copy's address. -/

structure PlayerObj where
  id : String
  name : String
  score : Option Int
deriving DecidableEq, Repr

structure RoundResultJS where
  playerId : String
  score : Int
deriving DecidableEq, Repr

def applyResult (heap : List PlayerObj) (copyAddrs : List Nat)
    (result : RoundResultJS) : Except String (List PlayerObj) :=
  match copyAddrs.find? (fun a => (heap[a]?).any (fun o => o.id == result.playerId)) with
  | none => .error ("Player with ID " ++ result.playerId ++ " not found")
  | some a =>
    match heap[a]? with
    | none => .error "invalid reference"
    | some o => .ok (heap.set a { o with score := some (o.score.getD 0 + result.score) })

def applyResults (heap : List PlayerObj) (copyAddrs : List Nat) :
    List RoundResultJS → Except String (List PlayerObj)
  | [] => .ok heap
  | r :: rs =>
    match applyResult heap copyAddrs r with
    | .error e => .error e
    | .ok heap2 => applyResults heap2 copyAddrs rs

def updatePlayerScores (heap : List PlayerObj) (addrs : List Nat)
    (roundResults : List RoundResultJS) : Except String (List PlayerObj × List Nat) :=
  match addrs.mapM (fun a => heap[a]?) with
  | none => .error "invalid player reference"
  | some objs =>
    match applyResults (heap ++ objs)
        ((List.range objs.length).map (fun i => heap.length + i)) roundResults with
    | .error e => .error e
    | .ok heap2 => .ok (heap2, (List.range objs.length).map (fun i => heap.length + i))

end CardGame

namespace CardGame

/-- C1: the zero-bid rule, stated on every scoring copy in the valid domain. -/
theorem zero_bid_scoring (t c : Int) (hc : 0 < c) (ht0 : 0 ≤ t) (htc : t ≤ c) :
    (t = 0 →
      calculateScore 0 t c = .ok (10 * c) ∧
      calculateRoundScore 0 t c = .ok (10 * c) ∧
      calculateRoundScore2 0 t c = .ok (10 * c)) ∧
    (0 < t →
      calculateScore 0 t c = .ok (-10 * c) ∧
      calculateRoundScore 0 t c = .ok (-10 * c) ∧
      calculateRoundScore2 0 t c = .ok (-10 * c)) := by
  constructor
  · intro ht
    subst ht
    refine ⟨?_, ?_, ?_⟩
    · unfold calculateScore
      rw [if_neg (by omega), if_neg (by omega), if_neg (by omega), if_pos rfl, if_pos rfl]
    · unfold calculateRoundScore
      rw [if_neg (by omega), if_neg (by omega), if_pos rfl, if_pos rfl]
    · unfold calculateRoundScore2
      rw [if_neg (by omega), if_neg (by omega), if_pos rfl, if_pos rfl]
  · intro ht
    have ht' : ¬ t = 0 := by omega
    refine ⟨?_, ?_, ?_⟩
    · unfold calculateScore
      rw [if_neg (by omega), if_neg (by omega), if_neg (by omega), if_pos rfl, if_neg ht']
    · unfold calculateRoundScore
      rw [if_neg (by omega), if_neg (by omega), if_pos rfl, if_neg ht']
    · unfold calculateRoundScore2
      rw [if_neg (by omega), if_neg (by omega), if_pos rfl, if_neg ht']

/-- Witness for `zero_bid_scoring` at `t = 2`, `c = 3`. -/
theorem zero_bid_scoring_witness :
    (0 : Int) < 3 ∧ (0 : Int) ≤ 2 ∧ (2 : Int) ≤ 3 ∧
    (calculateScore 0 2 3 = .ok (-30) ∧
     calculateRoundScore 0 2 3 = .ok (-30) ∧
     calculateRoundScore2 0 2 3 = .ok (-30)) := by
  refine ⟨by decide, by decide, by decide, ?_⟩
  have h := (zero_bid_scoring 2 3 (by decide) (by decide) (by decide)).2 (by decide)
  simpa using h

/-- C2: the nonzero-bid rule, stated on every scoring copy in the valid
domain: an exact bid scores `+20` per trick taken, a miss scores `-10`
per trick of difference. -/
theorem nonzero_bid_scoring (b t c : Int) (hb : 0 < b) (hbc : b ≤ c)
    (ht0 : 0 ≤ t) (htc : t ≤ c) :
    (b = t →
      calculateScore b t c = .ok (20 * t) ∧
      calculateRoundScore b t c = .ok (20 * t) ∧
      calculateRoundScore2 b t c = .ok (20 * t)) ∧
    (b ≠ t →
      calculateScore b t c = .ok (-10 * |b - t|) ∧
      calculateRoundScore b t c = .ok (-10 * |b - t|) ∧
      calculateRoundScore2 b t c = .ok (-10 * |b - t|)) := by
  have hb0 : ¬ b = 0 := by omega
  constructor
  · intro hbt
    refine ⟨?_, ?_, ?_⟩
    · unfold calculateScore
      rw [if_neg (by omega), if_neg (by omega), if_neg (by omega), if_neg hb0, if_pos hbt]
    · unfold calculateRoundScore
      rw [if_neg (by omega), if_neg (by omega), if_neg hb0, if_pos hbt]
    · unfold calculateRoundScore2
      rw [if_neg (by omega), if_neg (by omega), if_neg hb0, if_pos hbt]
  · intro hbt
    refine ⟨?_, ?_, ?_⟩
    · unfold calculateScore
      rw [if_neg (by omega), if_neg (by omega), if_neg (by omega), if_neg hb0, if_neg hbt]
    · unfold calculateRoundScore
      rw [if_neg (by omega), if_neg (by omega), if_neg hb0, if_neg hbt]
    · unfold calculateRoundScore2
      rw [if_neg (by omega), if_neg (by omega), if_neg hb0, if_neg hbt]

/-- Witness for `nonzero_bid_scoring` at `b = 3`, `t = 1`, `c = 4`. -/
theorem nonzero_bid_scoring_witness :
    (0 : Int) < 3 ∧ (3 : Int) ≤ 4 ∧ (0 : Int) ≤ 1 ∧ (1 : Int) ≤ 4 ∧
    (calculateScore 3 1 4 = .ok (-20) ∧
     calculateRoundScore 3 1 4 = .ok (-20) ∧
     calculateRoundScore2 3 1 4 = .ok (-20)) := by
  refine ⟨by decide, by decide, by decide, by decide, ?_⟩
  have h := (nonzero_bid_scoring 3 1 4 (by decide) (by decide) (by decide)
    (by decide)).2 (by decide)
  simpa using h

/-- C5 counterexample: `calculateScore` does not validate
`tricksTaken ≤ cardsDealt`; at `bid = 1`, `tricksTaken = 3`,
`cardsDealt = 2` it returns a score instead of raising. -/
theorem calculateScore_no_bounds_check :
    (3 : Int) > 2 ∧ calculateScore 1 3 2 = .ok (-20) := by
  exact ⟨by decide, rfl⟩

/-- C5 (amended): `calculateScore` fails fast exactly on `bid < 0`,
`tricksTaken < 0` or `cardsDealt ≤ 0`; it does not validate
`bid ≤ cardsDealt` or `tricksTaken ≤ cardsDealt` — any input with
`bid ≥ 0`, `tricksTaken ≥ 0` and `cardsDealt > 0` yields a score. -/
theorem calculateScore_validation (b t c : Int) :
    ((b < 0 ∨ t < 0 ∨ c ≤ 0) → ∃ e, calculateScore b t c = .error e) ∧
    (0 ≤ b → 0 ≤ t → 0 < c → ∃ v, calculateScore b t c = .ok v) := by
  constructor
  · intro h
    unfold calculateScore
    by_cases hb : b < 0
    · rw [if_pos hb]; exact ⟨_, rfl⟩
    · rw [if_neg hb]
      by_cases ht : t < 0
      · rw [if_pos ht]; exact ⟨_, rfl⟩
      · rw [if_neg ht]
        have hc : c ≤ 0 := by omega
        rw [if_pos hc]; exact ⟨_, rfl⟩
  · intro hb ht hc
    unfold calculateScore
    rw [if_neg (by omega), if_neg (by omega), if_neg (by omega)]
    by_cases hb0 : b = 0
    · rw [if_pos hb0]
      by_cases ht0 : t = 0
      · rw [if_pos ht0]; exact ⟨_, rfl⟩
      · rw [if_neg ht0]; exact ⟨_, rfl⟩
    · rw [if_neg hb0]
      by_cases hbt : b = t
      · rw [if_pos hbt]; exact ⟨_, rfl⟩
      · rw [if_neg hbt]; exact ⟨_, rfl⟩

/-- Witness for `calculateScore_validation`: at `(-1, 0, 5)` the negative
branch rejects, and at `(1, 3, 2)` the in-range branch returns a value. -/
theorem calculateScore_validation_witness :
    (∃ e, calculateScore (-1) 0 5 = .error e) ∧
    (∃ v, calculateScore 1 3 2 = .ok v) := by
  constructor
  · exact (calculateScore_validation (-1) 0 5).1 (Or.inl (by decide))
  · exact (calculateScore_validation 1 3 2).2 (by decide) (by decide) (by decide)

/-- C3: the applied bonus equals the declared bonus exactly when the
player's recorded bid equals their recorded tricks, and is `0` in every
other case, including when the player has no recorded result. -/
theorem bonus_applied_iff_exact_bid (hist : Nat → String → Int) (round : Nat)
    (pid : String) (results : List PlayerResult) :
    (∀ r, results.find? (fun result => result.playerId == pid) = some r →
      (r.bid = r.tricks →
        calculateAppliedBonusPoints hist round pid results = hist round pid) ∧
      (r.bid ≠ r.tricks →
        calculateAppliedBonusPoints hist round pid results = 0)) ∧
    (results.find? (fun result => result.playerId == pid) = none →
      calculateAppliedBonusPoints hist round pid results = 0) := by
  unfold calculateAppliedBonusPoints
  by_cases hz : hist round pid = 0
  · rw [if_pos hz]
    exact ⟨fun r _ => ⟨fun _ => hz.symm, fun _ => rfl⟩, fun _ => rfl⟩
  · rw [if_neg hz]
    constructor
    · intro r hfind
      rw [hfind]
      constructor
      · intro hbt
        show (if r.bid = r.tricks then hist round pid else 0) = hist round pid
        rw [if_pos hbt]
      · intro hbt
        show (if r.bid = r.tricks then hist round pid else 0) = 0
        rw [if_neg hbt]
    · intro hfind
      rw [hfind]

/-- Witness for `bonus_applied_iff_exact_bid`: with a declared bonus of 10,
an exact bid `3 = 3` applies 10, a miss `3 ≠ 2` applies 0, and a player
with no recorded result applies 0. -/
theorem bonus_applied_iff_exact_bid_witness :
    calculateAppliedBonusPoints (fun _ _ => 10) 1 "A" [⟨"A", 3, 3⟩] = 10 ∧
    calculateAppliedBonusPoints (fun _ _ => 10) 1 "A" [⟨"A", 3, 2⟩] = 0 ∧
    calculateAppliedBonusPoints (fun _ _ => 10) 1 "A" [] = 0 := by
  refine ⟨?_, ?_, ?_⟩
  · exact ((bonus_applied_iff_exact_bid (fun _ _ => 10) 1 "A" [⟨"A", 3, 3⟩]).1
      ⟨"A", 3, 3⟩ rfl).1 rfl
  · exact ((bonus_applied_iff_exact_bid (fun _ _ => 10) 1 "A" [⟨"A", 3, 2⟩]).1
      ⟨"A", 3, 2⟩ rfl).2 (by decide)
  · exact (bonus_applied_iff_exact_bid (fun _ _ => 10) 1 "A" []).2 rfl

set_option maxRecDepth 4000 in
/-- C4: ranking is dense in the sense of the walk `_updateRankings`
performs: the first sorted player has rank 1, a player whose score equals
the previous player's keeps that rank, a strict decrease bumps the rank by
the count of players seen at the previous rank; `[30, 30, 10]` yields
ranks `[1, 1, 3]` and an all-tied list yields all rank 1. -/
theorem dense_ranking (players : List (String × Int)) :
    (∀ a rest, updateRankings players = a :: rest → a.2.2 = 1) ∧
    (∀ u a b v, updateRankings players = u ++ a :: b :: v →
      b.2.1 = a.2.1 → b.2.2 = a.2.2) ∧
    (∀ u a b v, updateRankings players = u ++ a :: b :: v →
      b.2.1 < a.2.1 →
      b.2.2 = a.2.2 + (u ++ [a]).countP (fun e => decide (e.2.2 = a.2.2))) ∧
    (∀ c, (∀ q ∈ players, q.2 = c) → ∀ e ∈ updateRankings players, e.2.2 = 1) ∧
    (updateRankings [("A", 30), ("B", 30), ("C", 10)]).map (fun e => e.2.2) = [1, 1, 3] := by
  have hpair : List.Pairwise scoreGe (sortByScoreDesc players) :=
    List.sorted_insertionSort scoreGe players
  have hout : updateRankings players = rankSpecGo [] (sortByScoreDesc players) := by
    unfold updateRankings
    exact assignRanks_eq_rankSpec _ hpair
  refine ⟨?_, ?_, ?_, ?_, by decide⟩
  · intro a rest h
    rw [hout] at h
    cases hsorted : sortByScoreDesc players with
    | nil => rw [hsorted] at h; simp [rankSpecGo] at h
    | cons hd t =>
      rw [hsorted] at h
      obtain ⟨n, s⟩ := hd
      simp only [rankSpecGo, List.cons.injEq] at h
      rw [← h.1]
      simp [List.countP_nil]
  · intro u a b v h heq
    rw [hout] at h
    obtain ⟨l1, l2, hsplit, hu, hw, hlen⟩ :=
      rankSpecGo_decomp u (a :: b :: v) (sortByScoreDesc players) [] h
    cases l2 with
    | nil => simp [rankSpecGo] at hw
    | cons hd2 t2 =>
      obtain ⟨n1, s1⟩ := hd2
      cases t2 with
      | nil => simp [rankSpecGo] at hw
      | cons hd3 t3 =>
        obtain ⟨n2, s2⟩ := hd3
        simp only [rankSpecGo, List.nil_append, List.cons.injEq] at hw
        obtain ⟨ha, hb, -⟩ := hw
        subst ha
        subst hb
        have heq' : s2 = s1 := heq
        show 1 + List.countP (fun x => decide (s2 < x)) (List.map Prod.snd l1 ++ [s1]) =
          1 + List.countP (fun x => decide (s1 < x)) (List.map Prod.snd l1)
        rw [heq', List.countP_append]
        have : List.countP (fun x => decide (s1 < x)) [s1] = 0 := by
          simp [List.countP_cons]
        omega
  · intro u a b v h hlt
    rw [hout] at h
    obtain ⟨l1, l2, hsplit, hu, hw, hlen⟩ :=
      rankSpecGo_decomp u (a :: b :: v) (sortByScoreDesc players) [] h
    cases l2 with
    | nil => simp [rankSpecGo] at hw
    | cons hd2 t2 =>
      obtain ⟨n1, s1⟩ := hd2
      cases t2 with
      | nil => simp [rankSpecGo] at hw
      | cons hd3 t3 =>
        obtain ⟨n2, s2⟩ := hd3
        simp only [rankSpecGo, List.nil_append, List.cons.injEq] at hw
        obtain ⟨ha, hb, -⟩ := hw
        subst ha
        subst hb
        have hlt' : s2 < s1 := hlt
        have hpairs : List.Pairwise scoreGe (l1 ++ (n1, s1) :: (n2, s2) :: t3) := by
          rw [← hsplit]; exact hpair
        obtain ⟨hl1pair, hl2pair, hcross⟩ := List.pairwise_append.mp hpairs
        have hcrossA : ∀ q ∈ l1, s1 ≤ q.2 := fun q hq =>
          hcross q hq (n1, s1) (List.mem_cons_self _ _)
        have hfull : List.countP (fun x => decide (s2 < x)) (l1.map Prod.snd) =
            l1.length := by
          have hallx : ∀ x ∈ l1.map Prod.snd, (fun x => decide (s2 < x)) x = true := by
            intro x hx
            simp only [decide_eq_true_eq]
            obtain ⟨q, hq, hqx⟩ := List.mem_map.mp hx
            have := hcrossA q hq
            omega
          have := List.countP_eq_length.mpr hallx
          simpa using this
        have hbridge : ∀ e ∈ u,
            (e.2.2 = 1 + (l1.map Prod.snd).countP (fun x => decide (s1 < x)) ↔
              e.2.1 = s1) := by
          intro e hme
          refine rank_eq_iff_score_eq l1 n1 s1 ((n2, s2) :: t3) hpairs e ?_
          rw [hu] at hme
          exact hme
        have hcount1 : u.countP
              (fun e => decide (e.2.2 = 1 + (l1.map Prod.snd).countP
                (fun x => decide (s1 < x)))) =
            u.countP (fun e => decide (e.2.1 = s1)) := by
          refine List.countP_congr ?_
          intro e hme
          simp only [decide_eq_true_eq]
          exact hbridge e hme
        have hcount2 : u.countP (fun e => decide (e.2.1 = s1)) =
            l1.countP (fun q => decide (q.2 = s1)) := by
          rw [hu]
          exact countP_score_rankSpecGo l1 [] s1
        have hpart : l1.length = l1.countP (fun q => decide (s1 < q.2)) +
            l1.countP (fun q => decide (q.2 = s1)) := by
          rw [List.length_eq_countP_add_countP (fun q => decide (s1 < q.2)) l1]
          congr 1
          refine List.countP_congr ?_
          intro q hq
          have := hcrossA q hq
          constructor
          · intro hnot
            simp only [decide_eq_true_eq] at hnot ⊢
            omega
          · intro hqe
            simp only [decide_eq_true_eq] at hqe ⊢
            omega
        have hmapcount : (l1.map Prod.snd).countP (fun x => decide (s1 < x)) =
            l1.countP (fun q => decide (s1 < q.2)) := by
          rw [List.countP_map]
          rfl
        have hcntle : l1.countP (fun q => decide (s1 < q.2)) ≤ l1.length :=
          List.countP_le_length _
        show 1 + List.countP (fun x => decide (s2 < x)) (List.map Prod.snd l1 ++ [s1]) =
          (1 + List.countP (fun x => decide (s1 < x)) (List.map Prod.snd l1)) +
          (u ++ [(n1, s1, 1 + List.countP (fun x => decide (s1 < x))
              (List.map Prod.snd l1))]).countP
            (fun e => decide (e.2.2 = 1 + List.countP (fun x => decide (s1 < x))
              (List.map Prod.snd l1)))
        rw [List.countP_append, List.countP_append]
        have hone : List.countP (fun x => decide (s2 < x)) [s1] = 1 := by
          simp [List.countP_cons, hlt']
        have hself : List.countP
            (fun e => decide (e.2.2 = 1 + (l1.map Prod.snd).countP
              (fun x => decide (s1 < x))))
            [(n1, s1, 1 + (l1.map Prod.snd).countP (fun x => decide (s1 < x)))] = 1 := by
          simp [List.countP_cons]
        rw [hone, hself, hcount1, hcount2]
        omega
  · intro c hall e he
    rw [hout] at he
    obtain ⟨w1, ne, se, w2, hleq, heq⟩ := mem_rankSpecGo e _ [] he
    have hmem : ∀ q ∈ sortByScoreDesc players, q.2 = c := by
      intro q hq
      exact hall q ((List.perm_insertionSort scoreGe players).mem_iff.mp hq)
    have hse : se = c := by
      have : ((ne, se) : String × Int) ∈ sortByScoreDesc players := by
        rw [hleq]
        exact List.mem_append.mpr (Or.inr (List.mem_cons_self _ _))
      exact hmem (ne, se) this
    have hzero : (([] : List Int) ++ w1.map Prod.snd).countP
        (fun x => decide (se < x)) = 0 := by
      refine List.countP_eq_zero.mpr ?_
      intro x hx
      simp only [decide_eq_true_eq]
      simp only [List.nil_append] at hx
      obtain ⟨q, hq, hqx⟩ := List.mem_map.mp hx
      have hqc : q.2 = c := by
        refine hmem q ?_
        rw [hleq]
        exact List.mem_append.mpr (Or.inl hq)
      omega
    rw [heq, hzero]

set_option maxRecDepth 4000 in
/-- Witness for `dense_ranking`, instantiating each clause on the sorted
outputs of `[30, 30, 10]` and an all-tied two-player list. -/
theorem dense_ranking_witness :
    (("A", (30 : Int), 1) : String × Int × Nat).2.2 = 1 ∧
    (("B", (30 : Int), 1) : String × Int × Nat).2.2 =
      (("A", (30 : Int), 1) : String × Int × Nat).2.2 ∧
    (("C", (10 : Int), 3) : String × Int × Nat).2.2 =
      (("B", (30 : Int), 1) : String × Int × Nat).2.2 +
        ([("A", (30 : Int), 1), ("B", (30 : Int), 1)]).countP
          (fun e => decide (e.2.2 = (("B", (30 : Int), 1) : String × Int × Nat).2.2)) ∧
    (("X", (5 : Int), 1) : String × Int × Nat).2.2 = 1 := by
  have h := dense_ranking [("A", (30 : Int)), ("B", 30), ("C", 10)]
  refine ⟨?_, ?_, ?_, ?_⟩
  · exact h.1 ("A", 30, 1) [("B", 30, 1), ("C", 10, 3)] (by decide)
  · exact h.2.1 [] ("A", 30, 1) ("B", 30, 1) [("C", 10, 3)] (by decide) (by decide)
  · exact h.2.2.1 [("A", 30, 1)] ("B", 30, 1) ("C", 10, 3) [] (by decide) (by decide)
  · exact (dense_ranking [("X", 5), ("Y", 5)]).2.2.2.1 5 (by decide)
      ("X", 5, 1) (by decide)

theorem hookStep_gameComplete_trigger (s : HookState) (op : HookOp)
    (hfalse : s.gameComplete = false) (htrue : (hookStep s op).gameComplete = true) :
    op = .advance ∧ s.currentRound = s.totalRounds ∧
      s.isRoundComplete s.currentRound = true := by
  cases op with
  | updateHand n =>
    exfalso
    have h2 : s.gameComplete = true := htrue
    simp [hfalse] at h2
  | goTo r =>
    exfalso
    simp only [hookStep] at htrue
    unfold HookState.goToRound at htrue
    by_cases h1 : r < 1 ∨ r > s.totalRounds
    · rw [if_pos h1] at htrue
      have h2 : s.gameComplete = true := htrue
      simp [hfalse] at h2
    · rw [if_neg h1] at htrue
      by_cases h2 : r > s.currentRound
      · rw [if_pos h2] at htrue
        have h3 : s.gameComplete = true := htrue
        simp [hfalse] at h3
      · rw [if_neg h2] at htrue
        have h3 : s.gameComplete = true := htrue
        simp [hfalse] at h3
  | advance =>
    simp only [hookStep] at htrue
    unfold HookState.advanceRound at htrue
    by_cases hc : s.isRoundComplete s.currentRound
    · rw [if_pos hc] at htrue
      by_cases hlt : s.currentRound < s.totalRounds
      · rw [if_pos hlt] at htrue
        exfalso
        have h2 : s.gameComplete = true := htrue
        simp [hfalse] at h2
      · rw [if_neg hlt] at htrue
        refine ⟨rfl, ?_, hc⟩
        have hble : s.currentRound ≤ s.totalRounds := by
          have hc' := hc
          simp only [HookState.isRoundComplete, Bool.and_eq_true,
            decide_eq_true_eq] at hc'
          exact hc'.1.2
        omega
    · rw [if_neg hc] at htrue
      exfalso
      have h2 : s.gameComplete = true := htrue
      simp [hfalse] at h2

theorem hookRun_gameComplete_split (tot : Nat) (ops : List HookOp)
    (h : (hookRun tot ops).gameComplete = true) :
    ∃ l1 l2, ops = l1 ++ HookOp.advance :: l2 ∧
      (hookRun tot l1).currentRound = (hookRun tot l1).totalRounds ∧
      (hookRun tot l1).isRoundComplete (hookRun tot l1).currentRound = true := by
  induction ops using List.reverseRecOn with
  | nil => simp [hookRun, hookInit] at h
  | append_singleton l op ih =>
    rw [hookRun, List.foldl_append] at h
    simp only [List.foldl_cons, List.foldl_nil] at h
    by_cases hprev : (hookRun tot l).gameComplete = true
    · obtain ⟨l1, l2, heq, hcr, hcomp⟩ := ih hprev
      exact ⟨l1, l2 ++ [op], by rw [heq]; simp, hcr, hcomp⟩
    · have hfalse : (hookRun tot l).gameComplete = false := by
        cases hb : (hookRun tot l).gameComplete
        · rfl
        · exact absurd hb hprev
      obtain ⟨hop, hcr, hcomp⟩ := hookStep_gameComplete_trigger (hookRun tot l) op hfalse h
      exact ⟨l, [], by rw [hop], hcr, hcomp⟩

/-- C7: the `gameComplete` flag starts false, the advance from a completed
round numbered `totalRounds` sets it, any step that turns it true is such
an advance, and hence every operation sequence that ends with it true
contains that final advance — no sequence stopping before it can set the
flag. -/
theorem gameComplete_iff_final_advance (totalRounds : Nat) :
    (hookInit totalRounds).gameComplete = false ∧
    (∀ s : HookState, s.currentRound = s.totalRounds →
      s.isRoundComplete s.currentRound = true →
      (s.advanceRound).2.gameComplete = true) ∧
    (∀ (s : HookState) (op : HookOp), s.gameComplete = false →
      (hookStep s op).gameComplete = true →
      op = .advance ∧ s.currentRound = s.totalRounds ∧
        s.isRoundComplete s.currentRound = true) ∧
    (∀ ops : List HookOp, (hookRun totalRounds ops).gameComplete = true →
      ∃ l1 l2, ops = l1 ++ HookOp.advance :: l2 ∧
        (hookRun totalRounds l1).currentRound = (hookRun totalRounds l1).totalRounds ∧
        (hookRun totalRounds l1).isRoundComplete
          (hookRun totalRounds l1).currentRound = true) := by
  refine ⟨rfl, ?_, hookStep_gameComplete_trigger, hookRun_gameComplete_split totalRounds⟩
  intro s hcr hc
  unfold HookState.advanceRound
  rw [if_pos hc, if_neg (by omega)]

/-- Witness for `gameComplete_iff_final_advance`: a one-round game whose
single round is complete; advancing sets the flag, and the two-operation
trace that sets the flag decomposes around its final advance. -/
theorem gameComplete_iff_final_advance_witness :
    ((HookState.mk 1 1 (fun _ => 1) false).advanceRound).2.gameComplete = true ∧
    (HookOp.advance = HookOp.advance ∧
      (HookState.mk 1 1 (fun _ => 1) false).currentRound =
        (HookState.mk 1 1 (fun _ => 1) false).totalRounds ∧
      (HookState.mk 1 1 (fun _ => 1) false).isRoundComplete
        (HookState.mk 1 1 (fun _ => 1) false).currentRound = true) ∧
    (∃ l1 l2, [HookOp.updateHand 1, HookOp.advance] = l1 ++ HookOp.advance :: l2 ∧
      (hookRun 1 l1).currentRound = (hookRun 1 l1).totalRounds ∧
      (hookRun 1 l1).isRoundComplete (hookRun 1 l1).currentRound = true) := by
  refine ⟨?_, ?_, ?_⟩
  · exact (gameComplete_iff_final_advance 1).2.1 (HookState.mk 1 1 (fun _ => 1) false)
      rfl (by decide)
  · exact (gameComplete_iff_final_advance 1).2.2.1 (HookState.mk 1 1 (fun _ => 1) false)
      HookOp.advance rfl (by decide)
  · exact (gameComplete_iff_final_advance 1).2.2.2
      [HookOp.updateHand 1, HookOp.advance] (by decide)

set_option maxRecDepth 8000 in
/-- C6 counterexample: the state with `currentRound = 10` and no completed
hands is reachable, its round is not complete, yet `advanceRound` neither
raises nor changes state — it returns `false` silently. -/
theorem advanceRound_silent_at_round_ten :
    RMReachable ⟨10, 0⟩ ∧
    RoundManager.canAdvanceRound ⟨10, 0⟩ = false ∧
    (RoundManager.advanceRound ⟨10, 0⟩).1 = .ok false ∧
    (RoundManager.advanceRound ⟨10, 0⟩).2 = ⟨10, 0⟩ := by
  refine ⟨?_, by decide, rfl, rfl⟩
  have h : runOps opsToRoundTen RoundManager.init = ⟨10, 0⟩ := by decide
  have := runOps_reachable opsToRoundTen RoundManager.init RMReachable.init
  rwa [h] at this

/-- C6 (amended): below the maximum round, `advanceRound` raises while the
current round's hands are incomplete and leaves the state unchanged; once
all hands are completed it succeeds, increments the round and resets the
hand counter to 0.  At `currentRound ≥ 10` it instead returns `false`
without raising, regardless of completion. -/
theorem advanceRound_gated (s : RoundManager) :
    (s.currentRound < 10 → s.completedHands < s.currentRound →
      (∃ e, (s.advanceRound).1 = .error e) ∧ (s.advanceRound).2 = s) ∧
    (s.currentRound < 10 → s.currentRound ≤ s.completedHands →
      (s.advanceRound).1 = .ok true ∧
      (s.advanceRound).2 = ⟨s.currentRound + 1, 0⟩) ∧
    (10 ≤ s.currentRound →
      (s.advanceRound).1 = .ok false ∧ (s.advanceRound).2 = s) := by
  refine ⟨?_, ?_, ?_⟩
  · intro h10 hlt
    have hcan : s.canAdvanceRound = false := by
      simp only [RoundManager.canAdvanceRound, RoundManager.getMaxHands, decide_eq_false_iff_not]
      omega
    unfold RoundManager.advanceRound
    rw [if_neg (by omega), hcan]
    exact ⟨⟨_, rfl⟩, rfl⟩
  · intro h10 hle
    have hcan : s.canAdvanceRound = true := by
      simp only [RoundManager.canAdvanceRound, RoundManager.getMaxHands, decide_eq_true_eq]
      omega
    unfold RoundManager.advanceRound
    rw [if_neg (by omega), hcan]
    exact ⟨rfl, rfl⟩
  · intro h10
    unfold RoundManager.advanceRound
    rw [if_pos h10]
    exact ⟨rfl, rfl⟩

/-- Witness for `advanceRound_gated` at the states `⟨2, 1⟩` (incomplete:
raises), `⟨2, 2⟩` (complete: succeeds and resets) and `⟨10, 5⟩` (maximum
round: silent `false`). -/
theorem advanceRound_gated_witness :
    ((∃ e, (RoundManager.advanceRound ⟨2, 1⟩).1 = .error e) ∧
      (RoundManager.advanceRound ⟨2, 1⟩).2 = ⟨2, 1⟩) ∧
    ((RoundManager.advanceRound ⟨2, 2⟩).1 = .ok true ∧
      (RoundManager.advanceRound ⟨2, 2⟩).2 = ⟨3, 0⟩) ∧
    ((RoundManager.advanceRound ⟨10, 5⟩).1 = .ok false ∧
      (RoundManager.advanceRound ⟨10, 5⟩).2 = ⟨10, 5⟩) := by
  refine ⟨?_, ?_, ?_⟩
  · exact (advanceRound_gated ⟨2, 1⟩).1 (by decide) (by decide)
  · exact (advanceRound_gated ⟨2, 2⟩).2.1 (by decide) (by decide)
  · exact (advanceRound_gated ⟨10, 5⟩).2.2 (by decide)

/-- C10: `0 ≤ completedHands ≤ currentRound` holds in every reachable
`RoundManager` state, and `completeHand` at the cap is a silent no-op. -/
theorem roundManager_hands_invariant :
    (∀ s, RMReachable s → 0 ≤ s.completedHands ∧ s.completedHands ≤ s.currentRound) ∧
    (∀ s : RoundManager, s.getMaxHands ≤ s.completedHands → s.completeHand = s) := by
  have noop : ∀ s : RoundManager, s.getMaxHands ≤ s.completedHands → s.completeHand = s := by
    intro s h
    unfold RoundManager.completeHand
    rw [if_neg (by omega)]
  refine ⟨?_, noop⟩
  intro s hreach
  induction hreach with
  | init => exact ⟨le_refl 0, by show (0 : Int) ≤ 1; decide⟩
  | step t op _ ih =>
    cases op with
    | advanceRound =>
      simp only [RMOp.apply]
      unfold RoundManager.advanceRound
      by_cases h10 : 10 ≤ t.currentRound
      · rw [if_pos h10]; exact ih
      · rw [if_neg h10]
        by_cases hcan : t.canAdvanceRound
        · rw [if_pos hcan]
          refine ⟨le_refl 0, ?_⟩
          show (0 : Int) ≤ t.currentRound + 1
          omega
        · rw [if_neg hcan]; exact ih
    | resetRound =>
      simp only [RMOp.apply]
      unfold RoundManager.resetRound
      refine ⟨le_refl 0, ?_⟩
      show (0 : Int) ≤ t.currentRound
      omega
    | completeHand =>
      simp only [RMOp.apply]
      unfold RoundManager.completeHand
      by_cases h : t.completedHands < t.getMaxHands
      · rw [if_pos h]
        unfold RoundManager.getMaxHands at h
        constructor
        · show (0 : Int) ≤ t.completedHands + 1
          omega
        · show t.completedHands + 1 ≤ t.currentRound
          omega
      · rw [if_neg h]; exact ih
    | resetGame =>
      simp only [RMOp.apply]
      unfold RoundManager.resetGame
      exact ⟨le_refl 0, by show (0 : Int) ≤ 1; decide⟩

/-- Witness for `roundManager_hands_invariant` at the initial state and at
the capped state `⟨3, 3⟩`. -/
theorem roundManager_hands_invariant_witness :
    (0 ≤ (RoundManager.init).completedHands ∧
      (RoundManager.init).completedHands ≤ (RoundManager.init).currentRound) ∧
    RoundManager.completeHand ⟨3, 3⟩ = ⟨3, 3⟩ := by
  constructor
  · exact roundManager_hands_invariant.1 RoundManager.init RMReachable.init
  · exact roundManager_hands_invariant.2 ⟨3, 3⟩ (by decide)

/-- C8 counterexample: submitting `{Alice: 5, Bob: 3}` to a tracker whose
only player is Alice passes the upfront validation (Alice has a score),
then fails on the unknown entry `Bob` — but only after the round record
was pushed and Alice's totals were mutated.  The rejection is not atomic. -/
theorem addRoundScores_not_atomic :
    (addRoundScores (initializePlayers ["Alice"]) [("Alice", 5), ("Bob", 3)]).1 =
      .error "TypeError: cannot read properties of undefined" ∧
    (addRoundScores (initializePlayers ["Alice"]) [("Alice", 5), ("Bob", 3)]).2 ≠
      initializePlayers ["Alice"] ∧
    (addRoundScores (initializePlayers ["Alice"]) [("Alice", 5), ("Bob", 3)]).2.rounds =
      [(1, [("Alice", 5), ("Bob", 3)])] ∧
    (addRoundScores (initializePlayers ["Alice"]) [("Alice", 5), ("Bob", 3)]).2.players =
      [("Alice", ⟨5, [5], 1⟩)] := by
  refine ⟨rfl, by decide, by decide, by decide⟩

/-- C8 (amended): the rejections performed by the upfront validation —
game already ended, or a tracked player missing from the submission —
happen before any state mutation, leaving the tracker exactly as it was;
a submission entry naming an unknown player instead fails after the round
record and the preceding entries' totals were already mutated. -/
theorem addRoundScores_validation_unchanged (s : TrackerState)
    (roundScores : List (String × Int)) :
    (s.gameEnded = true →
      (∃ e, (addRoundScores s roundScores).1 = .error e) ∧
      (addRoundScores s roundScores).2 = s) ∧
    ((∃ q ∈ s.players, lookupScore roundScores q.1 = none) →
      (∃ e, (addRoundScores s roundScores).1 = .error e) ∧
      (addRoundScores s roundScores).2 = s) := by
  constructor
  · intro hg
    unfold addRoundScores
    rw [if_pos hg]
    exact ⟨⟨_, rfl⟩, rfl⟩
  · rintro ⟨q, hq, hnone⟩
    unfold addRoundScores
    by_cases hg : s.gameEnded
    · rw [if_pos hg]
      exact ⟨⟨_, rfl⟩, rfl⟩
    · rw [if_neg hg]
      have hsome : (s.players.find? (fun q => (lookupScore roundScores q.1).isNone)).isSome := by
        rw [List.find?_isSome]
        exact ⟨q, hq, by simp [hnone]⟩
      obtain ⟨q', hq'⟩ := Option.isSome_iff_exists.mp hsome
      rw [hq']
      exact ⟨⟨_, rfl⟩, rfl⟩

/-- Witness for `addRoundScores_validation_unchanged`: an ended game and a
tracker missing a score for its player both reject without mutation. -/
theorem addRoundScores_validation_unchanged_witness :
    ((∃ e, (addRoundScores ⟨[("A", ⟨0, [], 1⟩)], [], 0, true⟩ [("A", 1)]).1 = .error e) ∧
      (addRoundScores ⟨[("A", ⟨0, [], 1⟩)], [], 0, true⟩ [("A", 1)]).2 =
        ⟨[("A", ⟨0, [], 1⟩)], [], 0, true⟩) ∧
    ((∃ e, (addRoundScores (initializePlayers ["A"]) []).1 = .error e) ∧
      (addRoundScores (initializePlayers ["A"]) []).2 = initializePlayers ["A"]) := by
  constructor
  · exact (addRoundScores_validation_unchanged ⟨[("A", ⟨0, [], 1⟩)], [], 0, true⟩
      [("A", 1)]).1 rfl
  · exact (addRoundScores_validation_unchanged (initializePlayers ["A"]) []).2
      ⟨("A", ⟨0, [], 1⟩), by decide, by decide⟩

theorem mapM_getElem_spec (heap : List PlayerObj) (addrs : List Nat) (objs : List PlayerObj)
    (h : addrs.mapM (fun a => heap[a]?) = some objs) :
    objs.length = addrs.length ∧
    (∀ a ∈ addrs, a < heap.length) ∧
    (∀ i (hi : i < addrs.length) (hio : i < objs.length),
      heap[addrs.get ⟨i, hi⟩]? = some (objs.get ⟨i, hio⟩)) := by
  induction addrs generalizing objs with
  | nil =>
    simp only [List.mapM_nil, pure, Option.some.injEq] at h
    subst h
    exact ⟨rfl, by simp, fun i hi => absurd hi (Nat.not_lt_zero i)⟩
  | cons a rest ih =>
    rw [List.mapM_cons] at h
    cases ha : heap[a]? with
    | none => rw [ha] at h; simp at h
    | some o =>
      rw [ha] at h
      cases hrest : rest.mapM (fun a => heap[a]?) with
      | none => rw [hrest] at h; simp at h
      | some tail =>
        rw [hrest] at h
        simp only [Option.bind_eq_bind, Option.some_bind, pure, Option.some.injEq] at h
        subst h
        obtain ⟨hlen, hmem, hidx⟩ := ih tail hrest
        refine ⟨by simp [hlen], ?_, ?_⟩
        · intro b hb
          rcases List.mem_cons.mp hb with hb1 | hb2
          · subst hb1
            exact (List.getElem?_eq_some.mp ha).1
          · exact hmem b hb2
        · intro i hi hio
          cases i with
          | zero => exact ha
          | succ n =>
            exact hidx n (Nat.lt_of_succ_lt_succ hi) (Nat.lt_of_succ_lt_succ hio)

theorem applyResult_spec (heap : List PlayerObj) (copyAddrs : List Nat)
    (r : RoundResultJS) (heap2 : List PlayerObj)
    (hok : applyResult heap copyAddrs r = .ok heap2) :
    heap2.length = heap.length ∧
    (∀ b : Nat, b ∉ copyAddrs → heap2[b]? = heap[b]?) ∧
    (∀ b : Nat, (heap2[b]?).map (fun o => (o.id, o.name)) =
      (heap[b]?).map (fun o => (o.id, o.name))) := by
  unfold applyResult at hok
  cases hfind : copyAddrs.find? (fun a => (heap[a]?).any (fun o => o.id == r.playerId)) with
  | none =>
    rw [hfind] at hok
    dsimp only at hok
    exact absurd hok (by simp)
  | some a =>
    rw [hfind] at hok
    dsimp only at hok
    cases hget : heap[a]? with
    | none =>
      rw [hget] at hok
      dsimp only at hok
      exact absurd hok (by simp)
    | some o =>
      rw [hget] at hok
      dsimp only at hok
      injection hok with h2
      subst h2
      have hmem : a ∈ copyAddrs := List.mem_of_find?_eq_some hfind
      have hlt : a < heap.length := (List.getElem?_eq_some.mp hget).1
      refine ⟨List.length_set heap a _, ?_, ?_⟩
      · intro b hb
        have hab : a ≠ b := fun he => hb (he ▸ hmem)
        rw [List.getElem?_set_ne hab]
      · intro b
        by_cases hab : a = b
        · subst hab
          rw [List.getElem?_set_self hlt, hget]
          rfl
        · rw [List.getElem?_set_ne hab]

theorem applyResults_spec (rs : List RoundResultJS) (copyAddrs : List Nat) :
    ∀ heap heap2, applyResults heap copyAddrs rs = .ok heap2 →
    heap2.length = heap.length ∧
    (∀ b : Nat, b ∉ copyAddrs → heap2[b]? = heap[b]?) ∧
    (∀ b : Nat, (heap2[b]?).map (fun o => (o.id, o.name)) =
      (heap[b]?).map (fun o => (o.id, o.name))) := by
  induction rs with
  | nil =>
    intro heap heap2 h
    injection h with h2
    subst h2
    exact ⟨rfl, fun _ _ => rfl, fun _ => rfl⟩
  | cons r rs ih =>
    intro heap heap2 h
    unfold applyResults at h
    cases happ : applyResult heap copyAddrs r with
    | error e =>
      rw [happ] at h
      dsimp only at h
      exact absurd h (by simp)
    | ok heap1 =>
      rw [happ] at h
      dsimp only at h
      obtain ⟨hl1, hf1, hn1⟩ := applyResult_spec heap copyAddrs r heap1 happ
      obtain ⟨hl2, hf2, hn2⟩ := ih heap1 heap2 h
      exact ⟨hl2.trans hl1, fun b hb => (hf2 b hb).trans (hf1 b hb),
        fun b => (hn2 b).trans (hn1 b)⟩

/-- C9: `updatePlayerScores` never mutates its input: whenever it
succeeds, every pre-existing heap object — in particular every original
player object and the addresses the input array holds — is unchanged, the
returned array consists of fresh addresses disjoint from the originals,
one per input player, and each fresh copy keeps the original's `id` and
`name` (only its `score` is updated). -/
theorem updatePlayerScores_frame (heap : List PlayerObj) (addrs : List Nat)
    (roundResults : List RoundResultJS) (heap2 : List PlayerObj) (copyAddrs : List Nat)
    (hok : updatePlayerScores heap addrs roundResults = .ok (heap2, copyAddrs)) :
    (∀ a, a < heap.length → heap2[a]? = heap[a]?) ∧
    (∀ a ∈ addrs, a < heap.length) ∧
    (∀ a ∈ copyAddrs, heap.length ≤ a) ∧
    copyAddrs.length = addrs.length ∧
    (∀ i (hi : i < addrs.length),
      (heap2[heap.length + i]?).map (fun o => (o.id, o.name)) =
        (heap[addrs.get ⟨i, hi⟩]?).map (fun o => (o.id, o.name))) := by
  unfold updatePlayerScores at hok
  cases hm : addrs.mapM (fun a => heap[a]?) with
  | none =>
    rw [hm] at hok
    dsimp only at hok
    exact absurd hok (by simp)
  | some objs =>
    rw [hm] at hok
    dsimp only at hok
    obtain ⟨hlen, hmem, hidx⟩ := mapM_getElem_spec heap addrs objs hm
    cases happ : applyResults (heap ++ objs)
        ((List.range objs.length).map (fun i => heap.length + i)) roundResults with
    | error e =>
      rw [happ] at hok
      dsimp only at hok
      exact absurd hok (by simp)
    | ok h2 =>
      rw [happ] at hok
      dsimp only at hok
      injection hok with hpair
      injection hpair with hh2 hca
      subst hh2
      subst hca
      obtain ⟨hal, haf, han⟩ := applyResults_spec roundResults _ (heap ++ objs) h2 happ
      have hnotmem : ∀ a, a < heap.length →
          a ∉ (List.range objs.length).map (fun i => heap.length + i) := by
        intro a ha hmem'
        obtain ⟨i, -, hai⟩ := List.mem_map.mp hmem'
        omega
      refine ⟨?_, hmem, ?_, ?_, ?_⟩
      · intro a ha
        rw [haf a (hnotmem a ha), List.getElem?_append, if_pos ha]
      · intro a ha
        obtain ⟨i, -, hai⟩ := List.mem_map.mp ha
        omega
      · simp [hlen]
      · intro i hi
        have hio : i < objs.length := by omega
        have hstep : ((heap ++ objs)[heap.length + i]?).map (fun o => (o.id, o.name)) =
            (objs[i]?).map (fun o => (o.id, o.name)) := by
          rw [List.getElem?_append_right (by omega)]
          congr 1
          congr 1
          omega
        rw [han (heap.length + i), hstep, hidx i hi hio,
          List.getElem?_eq_getElem hio]
        rfl

/-- Witness for `updatePlayerScores_frame`: a one-player heap with one
score entry; the call succeeds, returns the fresh address `1`, and leaves
the original object at address `0` untouched. -/
theorem updatePlayerScores_frame_witness :
    updatePlayerScores [PlayerObj.mk "p1" "Alice" (some 0)] [0] [RoundResultJS.mk "p1" 5] =
      .ok ([PlayerObj.mk "p1" "Alice" (some 0), PlayerObj.mk "p1" "Alice" (some 5)], [1]) ∧
    ([PlayerObj.mk "p1" "Alice" (some 0), PlayerObj.mk "p1" "Alice" (some 5)] :
      List PlayerObj)[0]? = ([PlayerObj.mk "p1" "Alice" (some 0)] : List PlayerObj)[0]? := by
  have hok : updatePlayerScores [PlayerObj.mk "p1" "Alice" (some 0)] [0]
      [RoundResultJS.mk "p1" 5] =
      .ok ([PlayerObj.mk "p1" "Alice" (some 0), PlayerObj.mk "p1" "Alice" (some 5)], [1]) := by
    rfl
  exact ⟨hok, (updatePlayerScores_frame _ _ _ _ _ hok).1 0 (by decide)⟩
